import Mathlib

/-!
Shallow embedding of the `too-many-lists` repository sources.

`src/lists/src/silly1.rs` defines a two-stack zipper list:
  - `Stack<T>` holds `head : Link<T>` where `Link<T> = Option<Box<Node<T>>>`
    and `Node<T> { elem : T, next : Link<T> }`;
  - `List<T>` (called `Zipper` here to avoid clashing with Lean's core
    `List`) holds two such stacks, `left` and `right`.

We embed `Link<T>` as an inductive with the boxed node inlined:
`Link.none` is Rust's `None`, and `Link.some e next` is
`Some(Box(Node { elem := e, next := next }))`.  A detached node (the value
passed to `push_node` / returned by `pop_node`) is embedded as the
structure `Node`.  Rust methods that mutate `&mut self` and return a value
are embedded as functions returning the pair (returned value, new state).

`src/lists/src/first.rs` defines a stub singly-linked list whose `pop` is
`unimplemented!()`; it is embedded at the end with the panic made explicit
as an `Except.error`.
-/

set_option autoImplicit false

universe u

variable {T : Type u}

/-- The chain hanging off a stack head: Rust's `Link<T> = Option<Box<Node<T>>>`
with the node inlined (`Link.some e next` is `Some(Box(Node{elem: e, next}))`). -/
inductive Link (T : Type u) : Type u where
  | none : Link T
  | some : T → Link T → Link T
deriving DecidableEq

/-- A detached `Box<Node<T>>` as handled by `push_node` / `pop_node`:
`struct Node<T> { elem: T, next: Link<T> }`. -/
structure Node (T : Type u) : Type u where
  elem : T
  next : Link T
deriving DecidableEq

/-- `pub struct Stack<T> { head: Link<T> }` -/
structure Stack (T : Type u) : Type u where
  head : Link T
deriving DecidableEq

/-- `Stack::new`: `Stack { head: None }`. -/
def Stack.new : Stack T := ⟨Link.none⟩

/-- `Stack::push_node`: `node.next = self.head.take(); self.head = Some(node);`.
Whatever `node.next` held before the call is overwritten (dropped). -/
def Stack.push_node (s : Stack T) (node : Node T) : Stack T :=
  ⟨Link.some node.elem s.head⟩

/-- `Stack::pop_node`: `self.head.take().map(|mut node| { self.head = node.next.take(); node })`.
Returns the detached head node (its `next` taken, i.e. set to `None`) and the
new stack state; on an empty stack returns `None` with the state unchanged. -/
def Stack.pop_node (s : Stack T) : Option (Node T) × Stack T :=
  match s.head with
  | Link.none => (Option.none, s)
  | Link.some e next => (Option.some ⟨e, Link.none⟩, ⟨next⟩)

/-- `Stack::push`: wraps `elem` in a fresh node with `next: None` and delegates
to `push_node`. -/
def Stack.push (s : Stack T) (elem : T) : Stack T :=
  s.push_node ⟨elem, Link.none⟩

/-- `Stack::pop`: `self.pop_node().map(|node| node.elem)`. -/
def Stack.pop (s : Stack T) : Option T × Stack T :=
  match s.pop_node with
  | (n, s1) => (n.map Node.elem, s1)

/-- `Stack::peek`: `self.head.as_ref().map(|node| &node.elem)`; the value read
through the returned shared reference. -/
def Stack.peek (s : Stack T) : Option T :=
  match s.head with
  | Link.none => Option.none
  | Link.some e _ => Option.some e

/-- `Stack::peek_mut`: `self.head.as_mut().map(|node| &mut node.elem)`; the value
read through the returned mutable reference (present iff the head is). -/
def Stack.peek_mut (s : Stack T) : Option T :=
  match s.head with
  | Link.none => Option.none
  | Link.some e _ => Option.some e

/-- Writing `v` through the mutable reference returned by `Stack::peek_mut`:
replaces the head element in place. When `peek_mut` returned `None` there is
no reference to write through, so the state is unchanged. -/
def Stack.peek_mut_write (s : Stack T) (v : T) : Stack T :=
  match s.head with
  | Link.none => s
  | Link.some _ next => ⟨Link.some v next⟩

/-- One iteration of the `Drop for Stack` loop body on the single loop
variable `cur_link`: `while let Some(mut boxed_node) = cur_link { cur_link = boxed_node.next.take(); }`.
`none` means the loop guard failed and the loop exits; `some c` means the head
node was detached and released, and the loop continues with `c`. -/
def Link.dropLoopBody : Link T → Option (Link T)
  | Link.none => Option.none
  | Link.some _ next => Option.some next

/-- Number of iterations the `Drop for Stack` loop executes before its guard
fails, starting from loop variable `cur_link = c`: one per node released. -/
def Link.dropSteps : Link T → Nat
  | Link.none => 0
  | Link.some _ next => Link.dropSteps next + 1

/-- The loop variable of `Drop for Stack` after running `k` iterations from
`c` (stopping early if the guard fails). -/
def Link.dropRun : Link T → Nat → Link T
  | c, 0 => c
  | c, k + 1 =>
    match c.dropLoopBody with
    | Option.none => c
    | Option.some c1 => Link.dropRun c1 k

/-- The zipper `pub struct List<T> { left: Stack<T>, right: Stack<T> }`
from `silly1.rs` (named `Zipper` here because the Rust name `List` clashes
with Lean's core `List`). -/
structure Zipper (T : Type u) : Type u where
  left : Stack T
  right : Stack T
deriving DecidableEq

/-- `List::new`: two empty stacks. -/
def Zipper.new : Zipper T := ⟨Stack.new, Stack.new⟩

/-- `List::push_left`: `self.left.push(elem)`. -/
def Zipper.push_left (z : Zipper T) (elem : T) : Zipper T :=
  { z with left := z.left.push elem }

/-- `List::push_right`: `self.right.push(elem)`. -/
def Zipper.push_right (z : Zipper T) (elem : T) : Zipper T :=
  { z with right := z.right.push elem }

/-- `List::pop_left`: `self.left.pop()`. -/
def Zipper.pop_left (z : Zipper T) : Option T × Zipper T :=
  match z.left.pop with
  | (r, s) => (r, { z with left := s })

/-- `List::pop_right`: `self.right.pop()`. -/
def Zipper.pop_right (z : Zipper T) : Option T × Zipper T :=
  match z.right.pop with
  | (r, s) => (r, { z with right := s })

/-- `List::peek_left`: `self.left.peek()`. -/
def Zipper.peek_left (z : Zipper T) : Option T := z.left.peek

/-- `List::peek_right`: `self.right.peek()`. -/
def Zipper.peek_right (z : Zipper T) : Option T := z.right.peek

/-- `List::peek_left_mut`: `self.left.peek_mut()`. -/
def Zipper.peek_left_mut (z : Zipper T) : Option T := z.left.peek_mut

/-- `List::peek_right_mut`: `self.right.peek_mut()`. -/
def Zipper.peek_right_mut (z : Zipper T) : Option T := z.right.peek_mut

/-- Writing `v` through the reference returned by `List::peek_left_mut`. -/
def Zipper.peek_left_mut_write (z : Zipper T) (v : T) : Zipper T :=
  { z with left := z.left.peek_mut_write v }

/-- Writing `v` through the reference returned by `List::peek_right_mut`. -/
def Zipper.peek_right_mut_write (z : Zipper T) (v : T) : Zipper T :=
  { z with right := z.right.peek_mut_write v }

/-- `List::go_left`: `self.left.pop_node().map(|node| self.right.push_node(node)).is_some()`.
Returns the boolean result and the new zipper state. -/
def Zipper.go_left (z : Zipper T) : Bool × Zipper T :=
  match z.left.pop_node with
  | (Option.none, l1) => (false, { z with left := l1 })
  | (Option.some node, l1) => (true, ⟨l1, z.right.push_node node⟩)

/-- `List::go_right`: `self.right.pop_node().map(|node| self.left.push_node(node)).is_some()`. -/
def Zipper.go_right (z : Zipper T) : Bool × Zipper T :=
  match z.right.pop_node with
  | (Option.none, r1) => (false, { z with right := r1 })
  | (Option.some node, r1) => (true, ⟨z.left.push_node node, r1⟩)

/-- Abstraction: the elements of a chain, head (most recently pushed) first. -/
def Link.toList : Link T → List T
  | Link.none => []
  | Link.some e next => e :: next.toList

/-- Build a chain from a list (head of the list becomes the stack head). -/
def Link.ofList : List T → Link T
  | [] => Link.none
  | e :: rest => Link.some e (Link.ofList rest)

/-- Number of nodes in a chain. -/
def Link.length : Link T → Nat
  | Link.none => 0
  | Link.some _ next => next.length + 1

/-- The logical sequence represented by a zipper: `reverse(left) ++ right`. -/
def Zipper.toSeq (z : Zipper T) : List T :=
  z.left.head.toList.reverse ++ z.right.head.toList

/-- One successful cursor move: `go_left` or `go_right` returned `true` and
produced the new state. -/
def Zipper.moveStep (z z1 : Zipper T) : Prop :=
  z.go_left = (true, z1) ∨ z.go_right = (true, z1)

/-- `z1` is reachable from `z` by a finite sequence of `go_left` / `go_right`
calls (unsuccessful calls do not change the state, so only successful moves
matter). -/
def Zipper.Reaches (z z1 : Zipper T) : Prop :=
  Relation.ReflTransGen Zipper.moveStep z z1

/-- The zipper holding logical sequence `seq` with the cursor after the first
`k` elements: `left` is the first `k` elements reversed, `right` is the rest. -/
def Zipper.zipperAt (seq : List T) (k : Nat) : Zipper T :=
  ⟨⟨Link.ofList (seq.take k).reverse⟩, ⟨Link.ofList (seq.drop k)⟩⟩

/-- `push` the elements of `es` one after the other (leftmost first). -/
def Stack.pushAll (s : Stack T) (es : List T) : Stack T :=
  es.foldl Stack.push s

/-- `pop` `n` times, collecting the `n` results in call order. -/
def Stack.popN : Stack T → Nat → List (Option T) × Stack T
  | s, 0 => ([], s)
  | s, n + 1 =>
    match s.pop with
    | (r, s1) =>
      match s1.popN n with
      | (rs, s2) => (r :: rs, s2)

/-- `push_left` the elements of `es` one after the other (leftmost first). -/
def Zipper.pushLeftAll (z : Zipper T) (es : List T) : Zipper T :=
  es.foldl Zipper.push_left z

/-- `push_right` the elements of `es` one after the other (leftmost first). -/
def Zipper.pushRightAll (z : Zipper T) (es : List T) : Zipper T :=
  es.foldl Zipper.push_right z

/-- `pop_left` `n` times, collecting the `n` results in call order. -/
def Zipper.popLeftN : Zipper T → Nat → List (Option T) × Zipper T
  | z, 0 => ([], z)
  | z, n + 1 =>
    match z.pop_left with
    | (r, z1) =>
      match z1.popLeftN n with
      | (rs, z2) => (r :: rs, z2)

/-- `pop_right` `n` times, collecting the `n` results in call order. -/
def Zipper.popRightN : Zipper T → Nat → List (Option T) × Zipper T
  | z, 0 => ([], z)
  | z, n + 1 =>
    match z.pop_right with
    | (r, z1) =>
      match z1.popRightN n with
      | (rs, z2) => (r :: rs, z2)

/-- The loop `while list.go_left() {}` from the `walk_aboot` test: each
successful `go_left` moves one node off `left`, and once `left` is empty
`go_left` returns `false` without changing anything, so running `go_left`
exactly `left.length` times yields the state in which the loop exits. -/
def Zipper.goLeftIter : Nat → Zipper T → Zipper T
  | 0, z => z
  | k + 1, z =>
    match z.go_left with
    | (false, z1) => z1
    | (true, z1) => Zipper.goLeftIter k z1

/-- State after `while list.go_left() {}` terminates. -/
def Zipper.goLeftAll (z : Zipper T) : Zipper T :=
  Zipper.goLeftIter z.left.head.length z

/-- `src/lists/src/first.rs`: `enum Link<T> { Empty, More(Box<Node<T>>) }` with
the boxed `Node { elem, next }` inlined, as for `Link` above. -/
inductive FirstLink (T : Type u) : Type u where
  | Empty : FirstLink T
  | More : T → FirstLink T → FirstLink T
deriving DecidableEq

/-- `src/lists/src/first.rs`: `pub struct List<T> { head: Link<T> }`. -/
structure FirstList (T : Type u) : Type u where
  head : FirstLink T
deriving DecidableEq

/-- The panic raised by the `unimplemented!()` placeholder in `first.rs`. -/
inductive RustPanic : Type where
  | notYetImplemented : RustPanic
deriving DecidableEq

/-- `first.rs` `List::push`: the new node's `next` is
`mem::replace(&mut self.head, Link::Empty)`, i.e. the old head, and the new
node becomes the head. -/
def FirstList.push (l : FirstList T) (elem : T) : FirstList T :=
  ⟨FirstLink.More elem l.head⟩

/-- `first.rs` `List::pop`: the `match` on `self.head` has empty (`// TODO`)
arms for both `Link::Empty` and `Link::More`, after which control always
reaches `unimplemented!()`, which panics. The panic is embedded as
`Except.error`. -/
def FirstList.pop (l : FirstList T) : Except RustPanic (Option T) :=
  match l.head with
  | FirstLink.Empty => Except.error RustPanic.notYetImplemented
  | FirstLink.More _ _ => Except.error RustPanic.notYetImplemented

/-! ### Basic facts about the chain abstraction -/

theorem Link.toList_ofList (l : List T) : (Link.ofList l).toList = l := by
  induction l with
  | nil => rfl
  | cons e rest ih => simp [Link.ofList, Link.toList, ih]

theorem Link.ofList_toList (c : Link T) : Link.ofList c.toList = c := by
  induction c with
  | none => rfl
  | some e next ih => simp [Link.ofList, Link.toList, ih]

theorem Link.length_eq (c : Link T) : c.length = c.toList.length := by
  induction c with
  | none => rfl
  | some e next ih => simp [Link.length, Link.toList, ih]

theorem Stack.push_toList (s : Stack T) (e : T) :
    (s.push e).head.toList = e :: s.head.toList := rfl

theorem Stack.pushAll_toList (es : List T) (s : Stack T) :
    (s.pushAll es).head.toList = es.reverse ++ s.head.toList := by
  induction es generalizing s with
  | nil => rfl
  | cons e rest ih =>
    show ((s.push e).pushAll rest).head.toList = _
    rw [ih, Stack.push_toList]
    simp

theorem Stack.popN_spec (n : Nat) (s : Stack T) (h : n ≤ s.head.toList.length) :
    (s.popN n).1 = (s.head.toList.take n).map Option.some ∧
      (s.popN n).2.head.toList = s.head.toList.drop n := by
  induction n generalizing s with
  | zero => exact ⟨rfl, rfl⟩
  | succ m ih =>
    obtain ⟨c⟩ := s
    cases c with
    | none => simp [Link.toList] at h
    | some e next =>
      have hnext : m ≤ (Stack.mk next).head.toList.length := by
        simpa [Link.toList] using Nat.le_of_succ_le_succ h
      have := ih ⟨next⟩ hnext
      simp only [Stack.popN, Stack.pop, Stack.pop_node] at *
      simp [Link.toList, this.1, this.2]

/-! ### Delegation of zipper-level bulk operations to stack level -/

theorem Zipper.pushLeftAll_eq (z : Zipper T) (es : List T) :
    z.pushLeftAll es = ⟨z.left.pushAll es, z.right⟩ := by
  induction es generalizing z with
  | nil => rfl
  | cons e rest ih => exact ih (z.push_left e)

theorem Zipper.pushRightAll_eq (z : Zipper T) (es : List T) :
    z.pushRightAll es = ⟨z.left, z.right.pushAll es⟩ := by
  induction es generalizing z with
  | nil => rfl
  | cons e rest ih => exact ih (z.push_right e)

theorem Zipper.popLeftN_eq (z : Zipper T) (n : Nat) :
    z.popLeftN n = ((z.left.popN n).1, ⟨(z.left.popN n).2, z.right⟩) := by
  induction n generalizing z with
  | zero => rfl
  | succ m ih =>
    obtain ⟨⟨c⟩, r⟩ := z
    cases c with
    | none =>
      simp only [Zipper.popLeftN, Zipper.pop_left, Stack.popN, Stack.pop,
        Stack.pop_node, ih]
    | some e next =>
      simp only [Zipper.popLeftN, Zipper.pop_left, Stack.popN, Stack.pop,
        Stack.pop_node, ih]

theorem Zipper.popRightN_eq (z : Zipper T) (n : Nat) :
    z.popRightN n = ((z.right.popN n).1, ⟨z.left, (z.right.popN n).2⟩) := by
  induction n generalizing z with
  | zero => rfl
  | succ m ih =>
    obtain ⟨l, ⟨c⟩⟩ := z
    cases c with
    | none =>
      simp only [Zipper.popRightN, Zipper.pop_right, Stack.popN, Stack.pop,
        Stack.pop_node, ih]
    | some e next =>
      simp only [Zipper.popRightN, Zipper.pop_right, Stack.popN, Stack.pop,
        Stack.pop_node, ih]

/-! ### The cursor invariant and reachability -/

theorem Zipper.toSeq_go_left (z : Zipper T) : (z.go_left).2.toSeq = z.toSeq := by
  obtain ⟨⟨lh⟩, ⟨rh⟩⟩ := z
  cases lh with
  | none => rfl
  | some e next =>
    simp [Zipper.go_left, Stack.pop_node, Stack.push_node, Zipper.toSeq,
      Link.toList]

theorem Zipper.toSeq_go_right (z : Zipper T) : (z.go_right).2.toSeq = z.toSeq := by
  obtain ⟨⟨lh⟩, ⟨rh⟩⟩ := z
  cases rh with
  | none => rfl
  | some e next =>
    simp [Zipper.go_right, Stack.pop_node, Stack.push_node, Zipper.toSeq,
      Link.toList]

theorem Zipper.toSeq_moveStep {z z1 : Zipper T} (h : Zipper.moveStep z z1) :
    z1.toSeq = z.toSeq := by
  cases h with
  | inl h =>
    have h2 := Zipper.toSeq_go_left z
    rw [h] at h2
    exact h2
  | inr h =>
    have h2 := Zipper.toSeq_go_right z
    rw [h] at h2
    exact h2

theorem Zipper.toSeq_of_reaches {z z1 : Zipper T} (h : z.Reaches z1) :
    z1.toSeq = z.toSeq := by
  induction h with
  | refl => rfl
  | tail hab hbc ih => rw [Zipper.toSeq_moveStep hbc, ih]

theorem Zipper.zipperAt_zero (seq : List T) :
    Zipper.zipperAt seq 0 = ⟨⟨Link.none⟩, ⟨Link.ofList seq⟩⟩ := rfl

theorem Zipper.reaches_leftmost (z : Zipper T) :
    z.Reaches (Zipper.zipperAt z.toSeq 0) := by
  obtain ⟨⟨lh⟩, ⟨rh⟩⟩ := z
  induction lh generalizing rh with
  | none =>
    have : Zipper.zipperAt (Zipper.toSeq ⟨⟨Link.none⟩, ⟨rh⟩⟩) 0
        = ⟨⟨Link.none⟩, ⟨rh⟩⟩ := by
      rw [Zipper.zipperAt_zero]
      simp [Zipper.toSeq, Link.toList, Link.ofList_toList]
    rw [this]
    exact Relation.ReflTransGen.refl
  | some e next ih =>
    have hstep : Zipper.moveStep ⟨⟨Link.some e next⟩, ⟨rh⟩⟩
        ⟨⟨next⟩, ⟨Link.some e rh⟩⟩ := Or.inl rfl
    have hseq : Zipper.toSeq (⟨⟨next⟩, ⟨Link.some e rh⟩⟩ : Zipper T)
        = Zipper.toSeq ⟨⟨Link.some e next⟩, ⟨rh⟩⟩ := by
      simp [Zipper.toSeq, Link.toList]
    have h0 := ih (Link.some e rh)
    rw [hseq] at h0
    exact Relation.ReflTransGen.head hstep h0

theorem Zipper.leftmost_reaches (z : Zipper T) :
    Zipper.Reaches (Zipper.zipperAt z.toSeq 0) z := by
  obtain ⟨⟨lh⟩, ⟨rh⟩⟩ := z
  induction lh generalizing rh with
  | none =>
    have : Zipper.zipperAt (Zipper.toSeq ⟨⟨Link.none⟩, ⟨rh⟩⟩) 0
        = ⟨⟨Link.none⟩, ⟨rh⟩⟩ := by
      rw [Zipper.zipperAt_zero]
      simp [Zipper.toSeq, Link.toList, Link.ofList_toList]
    rw [this]
    exact Relation.ReflTransGen.refl
  | some e next ih =>
    have hstep : Zipper.moveStep ⟨⟨next⟩, ⟨Link.some e rh⟩⟩
        ⟨⟨Link.some e next⟩, ⟨rh⟩⟩ := Or.inr rfl
    have hseq : Zipper.toSeq (⟨⟨next⟩, ⟨Link.some e rh⟩⟩ : Zipper T)
        = Zipper.toSeq ⟨⟨Link.some e next⟩, ⟨rh⟩⟩ := by
      simp [Zipper.toSeq, Link.toList]
    have h0 := ih (Link.some e rh)
    rw [hseq] at h0
    exact Relation.ReflTransGen.tail h0 hstep

theorem Zipper.reaches_iff_toSeq (z z1 : Zipper T) :
    z.Reaches z1 ↔ z1.toSeq = z.toSeq := by
  constructor
  · exact Zipper.toSeq_of_reaches
  · intro h
    have h1 := Zipper.reaches_leftmost z
    have h2 := Zipper.leftmost_reaches z1
    rw [← h] at h1
    exact h1.trans h2

theorem Zipper.toSeq_zipperAt (seq : List T) (k : Nat) :
    (Zipper.zipperAt seq k).toSeq = seq := by
  simp [Zipper.zipperAt, Zipper.toSeq, Link.toList_ofList]

theorem Zipper.zipperAt_left_length (z : Zipper T) :
    Zipper.zipperAt z.toSeq z.left.head.toList.length = z := by
  obtain ⟨⟨lh⟩, ⟨rh⟩⟩ := z
  have htake : List.take lh.toList.length
      (lh.toList.reverse ++ rh.toList) = lh.toList.reverse := by
    have := List.take_left lh.toList.reverse rh.toList
    rwa [List.length_reverse] at this
  have hdrop : List.drop lh.toList.length
      (lh.toList.reverse ++ rh.toList) = rh.toList := by
    have := List.drop_left lh.toList.reverse rh.toList
    rwa [List.length_reverse] at this
  simp [Zipper.zipperAt, Zipper.toSeq, htake, hdrop, Link.ofList_toList]

theorem Zipper.reaches_iff_zipperAt (z z1 : Zipper T) :
    z.Reaches z1 ↔ ∃ k, k ≤ z.toSeq.length ∧ z1 = Zipper.zipperAt z.toSeq k := by
  rw [Zipper.reaches_iff_toSeq]
  constructor
  · intro h
    refine ⟨z1.left.head.toList.length, ?_, ?_⟩
    · have hlen : z1.toSeq.length
          = z1.left.head.toList.length + z1.right.head.toList.length := by
        simp [Zipper.toSeq]
      rw [← h]
      omega
    · rw [← h]
      exact (Zipper.zipperAt_left_length z1).symm
  · rintro ⟨k, hk, rfl⟩
    exact Zipper.toSeq_zipperAt z.toSeq k

theorem Zipper.zipperAt_inj (seq : List T) (k k1 : Nat)
    (hk : k ≤ seq.length) (hk1 : k1 ≤ seq.length)
    (h : Zipper.zipperAt seq k = Zipper.zipperAt seq k1) : k = k1 := by
  have hleft : Link.ofList (seq.take k).reverse
      = Link.ofList (seq.take k1).reverse := congrArg (fun z => Zipper.left z |>.head) h
  have h2 : (seq.take k).reverse = (seq.take k1).reverse := by
    have := congrArg Link.toList hleft
    rwa [Link.toList_ofList, Link.toList_ofList] at this
  have h3 : seq.take k = seq.take k1 := List.reverse_injective h2
  have h4 := congrArg List.length h3
  rw [List.length_take, List.length_take] at h4
  omega

/-! ### The iterative teardown loop -/

theorem Link.dropSteps_eq (c : Link T) : c.dropSteps = c.toList.length := by
  induction c with
  | none => rfl
  | some e next ih => simp [Link.dropSteps, Link.toList, ih]

theorem Link.dropRun_dropSteps (c : Link T) : c.dropRun c.dropSteps = Link.none := by
  induction c with
  | none => rfl
  | some e next ih => simpa [Link.dropSteps, Link.dropRun, Link.dropLoopBody] using ih

/-! ### Claim theorems -/

/-- C3: for every sequence of n `push_left` calls on any zipper, the next n
`pop_left` calls return the pushed elements in exact reverse order of
insertion, each wrapped in `Some`; symmetrically for `push_right`/`pop_right`. -/
theorem Zipper.push_pop_lifo (z : Zipper T) (es : List T) :
    ((z.pushLeftAll es).popLeftN es.length).1 = es.reverse.map Option.some ∧
      ((z.pushRightAll es).popRightN es.length).1 = es.reverse.map Option.some := by
  constructor
  · rw [Zipper.pushLeftAll_eq, Zipper.popLeftN_eq]
    have hlist := Stack.pushAll_toList es z.left
    have hlen : es.length ≤ (z.left.pushAll es).head.toList.length := by
      rw [hlist]
      simp
    have hspec := Stack.popN_spec es.length (z.left.pushAll es) hlen
    rw [hspec.1, hlist]
    have htake : List.take es.length (es.reverse ++ z.left.head.toList)
        = es.reverse := by
      have := List.take_left es.reverse z.left.head.toList
      rwa [List.length_reverse] at this
    rw [htake]
  · rw [Zipper.pushRightAll_eq, Zipper.popRightN_eq]
    have hlist := Stack.pushAll_toList es z.right
    have hlen : es.length ≤ (z.right.pushAll es).head.toList.length := by
      rw [hlist]
      simp
    have hspec := Stack.popN_spec es.length (z.right.pushAll es) hlen
    rw [hspec.1, hlist]
    have htake : List.take es.length (es.reverse ++ z.right.head.toList)
        = es.reverse := by
      have := List.take_left es.reverse z.right.head.toList
      rwa [List.length_reverse] at this
    rw [htake]

/-- C4: the `Drop for Stack` teardown is an explicit iterative loop over the
single variable `cur_link`: each iteration detaches exactly the head node
(`dropLoopBody`), the loop runs exactly one iteration per node of the chain
(`dropSteps` equals the chain length) and then its guard fails with the whole
chain released (`dropRun` reaches the empty link); in particular a stack built
by 100000 pushes is torn down in exactly 100000 loop iterations, with the loop
state a single link — not by recursion on `next`, so the call-stack use does
not grow with the chain length. -/
theorem Stack.drop_iterative_teardown :
    (∀ c : Link T, c.dropSteps = c.toList.length) ∧
      (∀ c : Link T, c.dropRun c.dropSteps = Link.none) ∧
      (∀ (e : T) (next : Link T),
        (Link.some e next).dropLoopBody = Option.some next ∧
          (Link.none : Link T).dropLoopBody = Option.none) ∧
      (Zipper.pushLeftAll Zipper.new
        (List.replicate 100000 (0 : Nat))).left.head.dropSteps = 100000 := by
  refine ⟨Link.dropSteps_eq, Link.dropRun_dropSteps, fun e next => ⟨rfl, rfl⟩, ?_⟩
  rw [Zipper.pushLeftAll_eq, Link.dropSteps_eq]
  show ((Zipper.new : Zipper Nat).left.pushAll
    (List.replicate 100000 (0 : Nat))).head.toList.length = 100000
  rw [Stack.pushAll_toList, List.length_append, List.length_reverse,
    List.length_replicate]
  rfl

/-- C5: `go_left` returns `true` iff the left stack is non-empty; when `left`
is empty it returns `false` and leaves the zipper (hence both stacks and all
peek results) exactly unchanged; symmetrically for `go_right`. -/
theorem Zipper.go_noop_boundary (z : Zipper T) :
    ((z.go_left).1 = true ↔ z.left.head ≠ Link.none) ∧
      (z.left.head = Link.none → z.go_left = (false, z)) ∧
      ((z.go_right).1 = true ↔ z.right.head ≠ Link.none) ∧
      (z.right.head = Link.none → z.go_right = (false, z)) := by
  obtain ⟨⟨lc⟩, ⟨rc⟩⟩ := z
  cases lc <;> cases rc <;>
    simp [Zipper.go_left, Zipper.go_right, Stack.pop_node]

/-- C5 witness: on the empty zipper, `go_left` returns `false` with no change. -/
theorem Zipper.go_noop_boundary_witness :
    (Zipper.new : Zipper Nat).go_left = (false, Zipper.new) :=
  (Zipper.go_noop_boundary Zipper.new).2.1 rfl

/-- C7: on an empty stack, `pop` returns no value and leaves the stack empty,
and `peek`/`peek_mut` return no value; correspondingly the zipper operations
`pop_left`/`peek_left`/`peek_left_mut` (resp. right) return `None` when the
respective stack is empty, leaving the zipper unchanged. -/
theorem Stack.empty_ops_no_value :
    (∀ s : Stack T, s.head = Link.none →
      s.pop = (Option.none, s) ∧ s.peek = Option.none ∧ s.peek_mut = Option.none) ∧
      (∀ z : Zipper T, z.left.head = Link.none →
        z.pop_left = (Option.none, z) ∧ z.peek_left = Option.none ∧
          z.peek_left_mut = Option.none) ∧
      (∀ z : Zipper T, z.right.head = Link.none →
        z.pop_right = (Option.none, z) ∧ z.peek_right = Option.none ∧
          z.peek_right_mut = Option.none) := by
  refine ⟨?_, ?_, ?_⟩
  · intro s h
    obtain ⟨c⟩ := s
    cases c with
    | none => exact ⟨rfl, rfl, rfl⟩
    | some e next => exact Link.noConfusion h
  · intro z h
    obtain ⟨⟨lc⟩, r⟩ := z
    cases lc with
    | none => exact ⟨rfl, rfl, rfl⟩
    | some e next => exact Link.noConfusion h
  · intro z h
    obtain ⟨l, ⟨rc⟩⟩ := z
    cases rc with
    | none => exact ⟨rfl, rfl, rfl⟩
    | some e next => exact Link.noConfusion h

/-- C7 witness: popping the freshly created empty stack returns no value and
leaves it empty. -/
theorem Stack.empty_ops_no_value_witness :
    (Stack.new : Stack Nat).pop = (Option.none, Stack.new) :=
  ((Stack.empty_ops_no_value (T := Nat)).1 Stack.new rfl).1

/-- C8: with a non-empty left (resp. right) stack, writing `v` through the
reference returned by `peek_left_mut` (resp. `peek_right_mut`) makes the next
`pop_left` (resp. `pop_right`) return `Some v`, with the same residual zipper
as popping without the write: the mutation targets exactly the head element
that pop removes. -/
theorem Zipper.peek_mut_write_pop (z : Zipper T) (v : T) :
    (z.left.head ≠ Link.none →
      ((z.peek_left_mut_write v).pop_left).1 = Option.some v ∧
        ((z.peek_left_mut_write v).pop_left).2 = (z.pop_left).2) ∧
      (z.right.head ≠ Link.none →
        ((z.peek_right_mut_write v).pop_right).1 = Option.some v ∧
          ((z.peek_right_mut_write v).pop_right).2 = (z.pop_right).2) := by
  obtain ⟨⟨lc⟩, ⟨rc⟩⟩ := z
  constructor
  · intro h
    cases lc with
    | none => exact absurd rfl h
    | some e next => exact ⟨rfl, rfl⟩
  · intro h
    cases rc with
    | none => exact absurd rfl h
    | some e next => exact ⟨rfl, rfl⟩

/-- C8 witness: writing 9 through `peek_left_mut` on a zipper whose left head
holds 1 makes the next `pop_left` return `Some 9`. -/
theorem Zipper.peek_mut_write_pop_witness :
    (((⟨⟨Link.some 1 Link.none⟩, ⟨Link.some 2 Link.none⟩⟩ : Zipper Nat).peek_left_mut_write
      9).pop_left).1 = Option.some 9 :=
  ((Zipper.peek_mut_write_pop _ 9).1 (by decide)).1

/-- C9: on a zipper with non-empty left stack, `go_left` (returning `true`)
followed by `go_right` restores exactly the original zipper, and symmetrically
`go_right` followed by `go_left` is the identity when the right stack is
non-empty. -/
theorem Zipper.go_left_go_right_inverse (z : Zipper T) :
    (z.left.head ≠ Link.none →
      (z.go_left).1 = true ∧ (((z.go_left).2).go_right).2 = z) ∧
      (z.right.head ≠ Link.none →
        (z.go_right).1 = true ∧ (((z.go_right).2).go_left).2 = z) := by
  obtain ⟨⟨lc⟩, ⟨rc⟩⟩ := z
  constructor
  · intro h
    cases lc with
    | none => exact absurd rfl h
    | some e next => exact ⟨rfl, rfl⟩
  · intro h
    cases rc with
    | none => exact absurd rfl h
    | some e next => exact ⟨rfl, rfl⟩

/-- C9 witness: the round trip on a concrete one-element zipper. -/
theorem Zipper.go_left_go_right_inverse_witness :
    ((((⟨⟨Link.some 1 Link.none⟩, ⟨Link.none⟩⟩ : Zipper Nat).go_left).2).go_right).2
      = ⟨⟨Link.some 1 Link.none⟩, ⟨Link.none⟩⟩ :=
  ((Zipper.go_left_go_right_inverse _).1 (by decide)).2

/-- C10: in the excluded `first.rs` stub, `pop` never returns a value — for
every list state it reaches the `unimplemented!()` placeholder and panics —
while `push` is a complete operation installing a new head node whose `next`
is the old head. -/
theorem FirstList.pop_never_returns_push_total :
    (∀ l : FirstList T, l.pop = Except.error RustPanic.notYetImplemented) ∧
      ∀ (l : FirstList T) (e : T), (l.push e).head = FirstLink.More e l.head := by
  constructor
  · intro l
    obtain ⟨h⟩ := l
    cases h <;> rfl
  · intro l e
    rfl

/-- C1: on a zipper whose left stack is non-empty (`peek_left` returns
`Some a`), `go_left` succeeds and afterwards `peek_right` returns that same
`a`; the new right chain is exactly `a` pushed on the old right chain, so the
element `peek_right` returned before the call (if any) is now the second
element of the right stack. -/
theorem Zipper.go_left_transfer (z : Zipper T) (a : T)
    (h : z.peek_left = Option.some a) :
    (z.go_left).1 = true ∧
      ((z.go_left).2).peek_right = Option.some a ∧
      ((z.go_left).2).right.head.toList = a :: z.right.head.toList ∧
      ∀ b, z.peek_right = Option.some b →
        (((z.go_left).2).right.head.toList)[1]? = Option.some b := by
  obtain ⟨⟨lc⟩, ⟨rc⟩⟩ := z
  cases lc with
  | none => exact Option.noConfusion h
  | some e next =>
    have ha : e = a := by
      simpa [Zipper.peek_left, Stack.peek] using h
    subst ha
    refine ⟨rfl, rfl, rfl, ?_⟩
    intro b hb
    cases rc with
    | none => exact Option.noConfusion hb
    | some f rnext =>
      have hb2 : f = b := by
        simpa [Zipper.peek_right, Stack.peek] using hb
      subst hb2
      simp [Zipper.go_left, Stack.pop_node, Stack.push_node, Link.toList]

/-- C1 witness: on the zipper with left chain `[1, 2]` and right chain `[3]`,
after `go_left` the right peek returns the old left peek `1`. -/
theorem Zipper.go_left_transfer_witness :
    (((⟨⟨Link.some 1 (Link.some 2 Link.none)⟩,
      ⟨Link.some 3 Link.none⟩⟩ : Zipper Nat).go_left).2).peek_right
      = Option.some 1 :=
  (Zipper.go_left_transfer
    (⟨⟨Link.some 1 (Link.some 2 Link.none)⟩, ⟨Link.some 3 Link.none⟩⟩ : Zipper Nat)
    1 rfl).2.1

/-- C2: `go_left` and `go_right` preserve the logical sequence
`reverse(left) ++ right` (`toSeq`); a zipper reaches exactly the zippers with
the same logical sequence, which are exactly the states `zipperAt seq k` for
the N+1 cursor positions `k = 0, ..., N` (distinct for distinct `k`), and
since reachability is characterized by an equality, every reachable position
is reachable from any other. -/
theorem Zipper.cursor_invariant_and_reachability :
    (∀ z : Zipper T, ((z.go_left).2).toSeq = z.toSeq ∧
      ((z.go_right).2).toSeq = z.toSeq) ∧
      (∀ z z1 : Zipper T, z.Reaches z1 ↔ z1.toSeq = z.toSeq) ∧
      (∀ z z1 : Zipper T, z.Reaches z1 ↔
        ∃ k, k ≤ z.toSeq.length ∧ z1 = Zipper.zipperAt z.toSeq k) ∧
      (∀ (seq : List T) (k k1 : Nat), k ≤ seq.length → k1 ≤ seq.length →
        Zipper.zipperAt seq k = Zipper.zipperAt seq k1 → k = k1) :=
  ⟨fun z => ⟨Zipper.toSeq_go_left z, Zipper.toSeq_go_right z⟩,
    Zipper.reaches_iff_toSeq,
    Zipper.reaches_iff_zipperAt,
    Zipper.zipperAt_inj⟩

/-- C2 witness: the zipper with left chain `[1]` and empty right reaches the
zipper with empty left and right chain `[1]` (both have logical sequence
`[1]`). -/
theorem Zipper.cursor_invariant_and_reachability_witness :
    Zipper.Reaches (⟨⟨Link.some 1 Link.none⟩, ⟨Link.none⟩⟩ : Zipper Nat)
      ⟨⟨Link.none⟩, ⟨Link.some 1 Link.none⟩⟩ :=
  ((Zipper.cursor_invariant_and_reachability (T := Nat)).2.1 _ _).mpr (by decide)

/-- C6: the canonical `walk_aboot` scenario, step by step from a new zipper:
after `push_left 0` and `push_right 1`, `peek_left = Some 0` and
`peek_right = Some 1`; after `push_left 2`, `push_left 3`, `push_right 4` and
repeating `go_left` until it returns `false`, the subsequent calls give
`pop_left = None`, `pop_right = Some 0`, `pop_right = Some 2`; after
`push_left 5`: `pop_right = Some 3`, `pop_left = Some 5`, `pop_right = Some 4`,
`pop_right = Some 1`, `pop_right = None`, `pop_left = None`. -/
theorem Zipper.walk_aboot_scenario :
    let z2 : Zipper Nat := (Zipper.new.push_left 0).push_right 1
    let z5 := ((z2.push_left 2).push_left 3).push_right 4
    let zg := z5.goLeftAll
    let p1 := zg.pop_left
    let p2 := p1.2.pop_right
    let p3 := p2.2.pop_right
    let z6 := p3.2.push_left 5
    let p4 := z6.pop_right
    let p5 := p4.2.pop_left
    let p6 := p5.2.pop_right
    let p7 := p6.2.pop_right
    let p8 := p7.2.pop_right
    let p9 := p8.2.pop_left
    z2.peek_left = Option.some 0 ∧ z2.peek_right = Option.some 1 ∧
      (zg.go_left).1 = false ∧
      p1.1 = Option.none ∧ p2.1 = Option.some 0 ∧ p3.1 = Option.some 2 ∧
      p4.1 = Option.some 3 ∧ p5.1 = Option.some 5 ∧ p6.1 = Option.some 4 ∧
      p7.1 = Option.some 1 ∧ p8.1 = Option.none ∧ p9.1 = Option.none := by
  decide
